import Mathlib

/-!
# Verification of the Dask-XGBoost 10-minute notebook

A shallow embedding of `docs/cudf/source/dask-xgb-10min.ipynb`: the synthetic
columnar table and its partitioning, the `query`-based train/test split, the
two RMSE pipelines, the event order of the notebook, and the post-training
mutation discipline of the booster and the evaluation history.
-/

set_option autoImplicit false

namespace DaskXgbNb

/-! ### Rows and columnar tables

The notebook builds `cdf = cudf.DataFrame({'x': ..., 'y': ...})`.  A row is an
association list from column name to numeric value. -/

abbrev Row := List (String × ℚ)

def Row.getCol (r : Row) (c : String) : Option ℚ :=
  (r.find? (fun p => p.1 = c)).map Prod.snd

/-- An in-memory columnar table (`cudf.DataFrame`): column schema plus rows. -/
structure CuDF where
  cols : List String
  rows : List Row
deriving DecidableEq

/-- `cudf.DataFrame({'x': xs, 'y': ys})`. -/
def mkCdf (xs ys : List ℚ) : CuDF :=
  ⟨["x", "y"], List.zipWith (fun x y => [("x", x), ("y", y)]) xs ys⟩

/-- A distributed table (`dask_cudf.DataFrame`): schema plus row partitions. -/
structure DDF where
  cols : List String
  parts : List (List Row)
deriving DecidableEq

/-- Chunking helper: split a list into successive chunks of `c` elements, with
`fuel` bounding the recursion depth (`fuel = l.length` suffices when `0 < c`). -/
def chunkEveryAux (c : Nat) : Nat → List Row → List (List Row)
  | 0, _ => []
  | _, [] => []
  | fuel + 1, l => l.take c :: chunkEveryAux c fuel (l.drop c)

def chunkEvery (c : Nat) (l : List Row) : List (List Row) :=
  chunkEveryAux c l.length l

/-- `dask_cudf.from_cudf(cdf, npartitions=np)`: rows are split into contiguous
chunks of `chunksize = ceil(nrows / np)` rows each. -/
def fromCudf (cdf : CuDF) (np : Nat) : DDF :=
  ⟨cdf.cols, chunkEvery ((cdf.rows.length + np - 1) / np) cdf.rows⟩

/-- `DataFrame.query(expr)`: filter the rows of each partition independently. -/
def DDF.query (d : DDF) (p : Row → Bool) : DDF :=
  ⟨d.cols, d.parts.map (List.filter p)⟩

/-- Materialization (`compute`): concatenate the partitions, keeping the schema. -/
def DDF.compute (d : DDF) : CuDF :=
  ⟨d.cols, d.parts.flatten⟩

/-- The predicate of `ddf.query('y < 0.5')`. -/
def yLtHalf (r : Row) : Bool :=
  match r.getCol "y" with
  | some v => v < 1/2
  | none => false

/-- The predicate of `ddf.query('y > 0.5')`. -/
def yGtHalf (r : Row) : Bool :=
  match r.getCol "y" with
  | some v => 1/2 < v
  | none => false

/-- `X_train = ddf.query('y < 0.5')` (before column selection). -/
def trainSplit (d : DDF) : DDF := d.query yLtHalf

/-- `X_test = ddf.query('y > 0.5')` (before column selection). -/
def testSplit (d : DDF) : DDF := d.query yGtHalf

/-- `df.columns.difference(cs)` restricted to what the notebook uses:
the columns of `df` that are not in `cs`. -/
def colsDifference (cols dropped : List String) : List String :=
  cols.filter (fun c => !(dropped.contains c))

def Row.selectCols (r : Row) (cs : List String) : Row :=
  cs.filterMap (fun c => (r.getCol c).map (fun v => (c, v)))

/-- Column selection `df[cs]`, applied per partition. -/
def DDF.select (d : DDF) (cs : List String) : DDF :=
  ⟨cs, d.parts.map (List.map (fun r => Row.selectCols r cs))⟩

/-- `ddf = dask_cudf.from_cudf(cdf, npartitions=8)` for the generated table. -/
def notebookDdf (xs ys : List ℚ) : DDF :=
  fromCudf (mkCdf xs ys) 8

/-! ### Basic partitioning lemmas -/

theorem flatten_chunkEveryAux (c fuel : Nat) (l : List Row) (hc : 0 < c)
    (hf : l.length ≤ fuel) : (chunkEveryAux c fuel l).flatten = l := by
  induction fuel generalizing l with
  | zero =>
    have hl : l = [] := List.eq_nil_of_length_eq_zero (Nat.le_zero.mp hf)
    subst hl; rfl
  | succ fuel ih =>
    cases l with
    | nil => rfl
    | cons a t =>
      have hdrop : ((a :: t).drop c).length ≤ fuel := by
        simp only [List.length_drop, List.length_cons]
        simp only [List.length_cons] at hf
        omega
      simp only [chunkEveryAux, List.flatten_cons, ih _ hdrop]
      exact List.take_append_drop c (a :: t)

theorem flatten_chunkEvery (c : Nat) (l : List Row) (hc : 0 < c) :
    (chunkEvery c l).flatten = l :=
  flatten_chunkEveryAux c l.length l hc le_rfl

theorem length_chunkEveryAux (c fuel : Nat) (l : List Row) (hc : 0 < c)
    (hf : l.length ≤ fuel) :
    (chunkEveryAux c fuel l).length = (l.length + c - 1) / c := by
  induction fuel generalizing l with
  | zero =>
    have hl : l = [] := List.eq_nil_of_length_eq_zero (Nat.le_zero.mp hf)
    subst hl
    simp only [chunkEveryAux, List.length_nil]
    have : 0 + c - 1 < c := by omega
    exact (Nat.div_eq_of_lt this).symm
  | succ fuel ih =>
    cases l with
    | nil =>
      simp only [chunkEveryAux, List.length_nil]
      have : 0 + c - 1 < c := by omega
      exact (Nat.div_eq_of_lt this).symm
    | cons a t =>
      have hlen : (a :: t).length = t.length + 1 := rfl
      have hdrop : ((a :: t).drop c).length ≤ fuel := by
        simp only [List.length_drop, List.length_cons]
        simp only [List.length_cons] at hf
        omega
      simp only [chunkEveryAux, List.length_cons, ih _ hdrop, List.length_drop]
      have hsplit : t.length + 1 + c - 1 = (t.length + 1 - 1) + c := by omega
      rw [hsplit, Nat.add_div_right _ hc]
      rcases Nat.lt_or_ge (t.length + 1) c with hlt | hge
      · have h1 : t.length + 1 - c = 0 := by omega
        rw [h1]
        have h2 : (0 : Nat) + c - 1 < c := by omega
        rw [Nat.div_eq_of_lt h2, Nat.div_eq_of_lt (by omega : t.length + 1 - 1 < c)]
      · have h1 : t.length + 1 - c + c - 1 = t.length + 1 - 1 := by omega
        rw [h1]

theorem length_chunkEvery (c : Nat) (l : List Row) (hc : 0 < c) :
    (chunkEvery c l).length = (l.length + c - 1) / c :=
  length_chunkEveryAux c l.length l hc le_rfl

theorem filter_flatten_map (p : Row → Bool) (L : List (List Row)) :
    (L.map (List.filter p)).flatten = L.flatten.filter p := by
  induction L with
  | nil => rfl
  | cons l L ih =>
    simp only [List.map_cons, List.flatten_cons, List.filter_append, ih]

theorem mem_mkCdf_rows (xs ys : List ℚ) (r : Row)
    (hr : r ∈ (mkCdf xs ys).rows) : ∃ x y, r = [("x", x), ("y", y)] := by
  simp only [mkCdf] at hr
  induction xs generalizing ys with
  | nil => simp at hr
  | cons a xs ih =>
    cases ys with
    | nil => simp at hr
    | cons b ys =>
      simp only [List.zipWith_cons_cons, List.mem_cons] at hr
      rcases hr with h | h
      · exact ⟨a, b, h⟩
      · exact ih ys h

theorem compute_fromCudf (cdf : CuDF) (np : Nat) (hnp : 0 < np) :
    (fromCudf cdf np).compute = cdf := by
  rcases cdf with ⟨cols, rows⟩
  cases rows with
  | nil => rfl
  | cons a t =>
    simp only [fromCudf, DDF.compute, CuDF.mk.injEq, true_and]
    refine flatten_chunkEvery _ _ ((Nat.one_le_div_iff hnp).mpr ?_)
    simp only [List.length_cons]
    omega

theorem compute_query (d : DDF) (p : Row → Bool) :
    (d.query p).compute = ⟨d.cols, d.compute.rows.filter p⟩ := by
  simp only [DDF.query, DDF.compute, filter_flatten_map]

theorem getCol_generated_y (x y : ℚ) :
    Row.getCol [("x", x), ("y", y)] "y" = some y := by
  simp [Row.getCol, List.find?]

theorem rows_notebookDdf (xs ys : List ℚ) :
    ((notebookDdf xs ys).compute).rows = (mkCdf xs ys).rows := by
  rw [notebookDdf, compute_fromCudf _ 8 (by norm_num)]

theorem rows_trainSplit (xs ys : List ℚ) :
    ((trainSplit (notebookDdf xs ys)).compute).rows
      = (mkCdf xs ys).rows.filter yLtHalf := by
  rw [trainSplit, compute_query, notebookDdf, compute_fromCudf _ 8 (by norm_num)]

theorem rows_testSplit (xs ys : List ℚ) :
    ((testSplit (notebookDdf xs ys)).compute).rows
      = (mkCdf xs ys).rows.filter yGtHalf := by
  rw [testSplit, compute_query, notebookDdf, compute_fromCudf _ 8 (by norm_num)]

/-- C1: the dataset split is a disjoint row-filter split by the numeric
threshold `0.5` on column `y`: every row of the generated table is in the train
subset (`ddf.query('y < 0.5')`) iff its `y` value is strictly below `1/2`, in
the test subset (`ddf.query('y > 0.5')`) iff its `y` value is strictly above
`1/2`, and no row is in both. -/
theorem c1_disjoint_threshold_split (xs ys : List ℚ) (r : Row)
    (hr : r ∈ ((notebookDdf xs ys).compute).rows) :
    ∃ y, Row.getCol r "y" = some y ∧
      (r ∈ ((trainSplit (notebookDdf xs ys)).compute).rows ↔ y < 1/2) ∧
      (r ∈ ((testSplit (notebookDdf xs ys)).compute).rows ↔ 1/2 < y) ∧
      ¬(r ∈ ((trainSplit (notebookDdf xs ys)).compute).rows ∧
        r ∈ ((testSplit (notebookDdf xs ys)).compute).rows) := by
  rw [rows_notebookDdf] at hr
  obtain ⟨x, y, rfl⟩ := mem_mkCdf_rows xs ys _ hr
  have ht1 : [("x", x), ("y", y)] ∈ ((trainSplit (notebookDdf xs ys)).compute).rows
      ↔ y < 1/2 := by
    rw [rows_trainSplit, List.mem_filter]
    simp [hr, yLtHalf, getCol_generated_y]
  have ht2 : [("x", x), ("y", y)] ∈ ((testSplit (notebookDdf xs ys)).compute).rows
      ↔ 1/2 < y := by
    rw [rows_testSplit, List.mem_filter]
    simp [hr, yGtHalf, getCol_generated_y]
  exact ⟨y, getCol_generated_y x y, ht1, ht2,
    fun hc => lt_asymm (ht1.mp hc.1) (ht2.mp hc.2)⟩

theorem c1_disjoint_threshold_split_witness :
    ∃ y, Row.getCol [("x", (0:ℚ)), ("y", 0)] "y" = some y ∧
      ([("x", (0:ℚ)), ("y", 0)] ∈ ((trainSplit (notebookDdf [0] [0])).compute).rows
        ↔ y < 1/2) ∧
      ([("x", (0:ℚ)), ("y", 0)] ∈ ((testSplit (notebookDdf [0] [0])).compute).rows
        ↔ 1/2 < y) ∧
      ¬([("x", (0:ℚ)), ("y", 0)] ∈ ((trainSplit (notebookDdf [0] [0])).compute).rows ∧
        [("x", (0:ℚ)), ("y", 0)] ∈ ((testSplit (notebookDdf [0] [0])).compute).rows) :=
  c1_disjoint_threshold_split [0] [0] [("x", 0), ("y", 0)]
    (by simp [notebookDdf, fromCudf, DDF.compute, chunkEvery, chunkEveryAux, mkCdf])

/-- C5: the synthetic table has exactly the two numeric columns `x` and `y`;
`from_cudf` with `npartitions=8` on the million-row table yields exactly 8
partitions; and both the generated table and every query-filtered subset are
collectively reconstructed from their partitions with the original schema. -/
theorem c5_partitions_reconstruct (xs ys : List ℚ) (np : Nat) (p : Row → Bool)
    (hnp : 0 < np) (hlen : (mkCdf xs ys).rows.length = 1000000) :
    (mkCdf xs ys).cols = ["x", "y"] ∧
    (mkCdf xs ys).cols.length = 2 ∧
    (fromCudf (mkCdf xs ys) 8).parts.length = 8 ∧
    (fromCudf (mkCdf xs ys) np).compute = mkCdf xs ys ∧
    ((fromCudf (mkCdf xs ys) np).query p).compute =
      ⟨(mkCdf xs ys).cols, (mkCdf xs ys).rows.filter p⟩ := by
  refine ⟨rfl, rfl, ?_, compute_fromCudf _ np hnp, ?_⟩
  · have hc : (0:Nat) < ((mkCdf xs ys).rows.length + 8 - 1) / 8 := by
      rw [hlen]; norm_num
    simp only [fromCudf]
    rw [length_chunkEvery _ _ hc, hlen]
  · rw [compute_query, compute_fromCudf _ np hnp]
    rfl

theorem c5_partitions_reconstruct_witness :
    (mkCdf (List.replicate 1000000 0) (List.replicate 1000000 0)).cols = ["x", "y"] ∧
    (mkCdf (List.replicate 1000000 0) (List.replicate 1000000 0)).cols.length = 2 ∧
    (fromCudf (mkCdf (List.replicate 1000000 0) (List.replicate 1000000 0)) 8).parts.length = 8 ∧
    (fromCudf (mkCdf (List.replicate 1000000 0) (List.replicate 1000000 0)) 8).compute
      = mkCdf (List.replicate 1000000 0) (List.replicate 1000000 0) ∧
    ((fromCudf (mkCdf (List.replicate 1000000 0) (List.replicate 1000000 0)) 8).query
        (fun _ => true)).compute =
      ⟨(mkCdf (List.replicate 1000000 0) (List.replicate 1000000 0)).cols,
       (mkCdf (List.replicate 1000000 0) (List.replicate 1000000 0)).rows.filter
         (fun _ => true)⟩ :=
  c5_partitions_reconstruct (List.replicate 1000000 0) (List.replicate 1000000 0) 8
    (fun _ => true) (by norm_num)
    (by simp only [mkCdf]
        rw [List.length_zipWith, min_self, List.length_replicate])

/-- C10: the split is not exhaustive: a row of the generated table whose `y`
value equals exactly `1/2` belongs neither to the train subset nor to the test
subset, and on a concrete table the union of the two subsets is a proper subset
of the generated table. -/
theorem c10_half_row_excluded (xs ys : List ℚ) (r : Row) (y : ℚ)
    (_hr : r ∈ ((notebookDdf xs ys).compute).rows)
    (hy : Row.getCol r "y" = some y) (hhalf : y = 1/2) :
    r ∉ ((trainSplit (notebookDdf xs ys)).compute).rows ∧
    r ∉ ((testSplit (notebookDdf xs ys)).compute).rows ∧
    ((trainSplit (notebookDdf [0] [1/2])).compute).rows ++
      ((testSplit (notebookDdf [0] [1/2])).compute).rows ≠
      ((notebookDdf [0] [1/2]).compute).rows := by
  subst hhalf
  have hf1 : yLtHalf r = false := by simp [yLtHalf, hy]
  have hf2 : yGtHalf r = false := by simp [yGtHalf, hy]
  refine ⟨?_, ?_, ?_⟩
  · rw [rows_trainSplit, List.mem_filter]
    simp [hf1]
  · rw [rows_testSplit, List.mem_filter]
    simp [hf2]
  · rw [rows_trainSplit, rows_testSplit, rows_notebookDdf]
    simp [mkCdf, yLtHalf, yGtHalf, Row.getCol, List.find?]

theorem c10_half_row_excluded_witness :
    [("x", (0:ℚ)), ("y", 1/2)] ∉
      ((trainSplit (notebookDdf [0] [1/2])).compute).rows ∧
    [("x", (0:ℚ)), ("y", 1/2)] ∉
      ((testSplit (notebookDdf [0] [1/2])).compute).rows ∧
    ((trainSplit (notebookDdf [0] [1/2])).compute).rows ++
      ((testSplit (notebookDdf [0] [1/2])).compute).rows ≠
      ((notebookDdf [0] [1/2]).compute).rows :=
  c10_half_row_excluded [0] [1/2] [("x", 0), ("y", 1/2)] (1/2)
    (by simp [notebookDdf, fromCudf, DDF.compute, chunkEvery, chunkEveryAux, mkCdf])
    (by simp [Row.getCol, List.find?]) rfl

/-! ### Notebook cells as an event sequence

The notebook's control flow is strictly linear: one event per top-level
operation, in cell order. -/

inductive NbEvent
  | setEnvVar (name val : String)
  | importLibs
  | runHostname
  | extractAddr
  | createCluster
  | createClient
  | buildFrame
  | toDask
  | querySplit
  | waitData
  | buildDMatrix
  | trainModel
  | extractResults
  | setParamCall
  | predictDistributed
  | metricOne
  | predictInplace
  | metricTwo
deriving DecidableEq

/-- The operations of the notebook, in execution order: `%env NCCL_P2P_DISABLE=1`,
the imports, the `hostname` subprocess, the `IPADDR` extraction,
`LocalCUDACluster(ip=IPADDR)`, `Client(cluster)`, the `cudf.DataFrame`
construction, `dask_cudf.from_cudf`, the two `query` calls, `wait`,
`DaskDMatrix`, `xgb.dask.train`, the `booster`/`history` extraction,
`booster.set_param`, `xgb.dask.predict` plus its metric, and
`booster.inplace_predict` plus its metric. -/
def notebookEvents : List NbEvent :=
  [.setEnvVar "NCCL_P2P_DISABLE" "1", .importLibs, .runHostname, .extractAddr,
   .createCluster, .createClient, .buildFrame, .toDask, .querySplit, .waitData,
   .buildDMatrix, .trainModel, .extractResults, .setParamCall,
   .predictDistributed, .metricOne, .predictInplace, .metricTwo]

/-- The value of an environment variable after executing a prefix of the
notebook: `%env NAME=VAL` sets it, and no event unsets it. -/
def envAfter (evs : List NbEvent) (name : String) : Option String :=
  evs.foldl
    (fun acc ev =>
      match ev with
      | .setEnvVar n v => if n = name then some v else acc
      | _ => acc)
    none

/-- Whether an event creates a distributed-runtime object
(`LocalCUDACluster` or `Client`). -/
def startsRuntime : NbEvent → Bool
  | .createCluster => true
  | .createClient => true
  | _ => false

/-- The notebook runner: each event's underlying library call may raise
(`Except.error`); a raise aborts the rest of the sequence.  There is no
`try`/`except` anywhere in the notebook, so this is the whole control flow. -/
def runNotebook {σ ε : Type} (sem : NbEvent → σ → Except ε σ) :
    List NbEvent → σ → Except ε σ
  | [], s => .ok s
  | ev :: rest, s =>
    match sem ev s with
    | .error e => .error e
    | .ok s2 => runNotebook sem rest s2

theorem runNotebook_append {σ ε : Type} (sem : NbEvent → σ → Except ε σ)
    (l1 l2 : List NbEvent) (s : σ) :
    runNotebook sem (l1 ++ l2) s =
      match runNotebook sem l1 s with
      | .error e => .error e
      | .ok s2 => runNotebook sem l2 s2 := by
  induction l1 generalizing s with
  | nil => rfl
  | cons ev rest ih =>
    simp only [List.cons_append, runNotebook]
    cases sem ev s with
    | error e => rfl
    | ok s2 => exact ih s2

/-! ### The training call -/

inductive ParamValue
  | int (n : ℤ)
  | str (s : String)
deriving DecidableEq

/-- The fixed hyperparameter dictionary `params` of the training cell. -/
def notebookParams : List (String × ParamValue) :=
  [("num_rounds", ParamValue.int 100),
   ("max_depth", ParamValue.int 8),
   ("max_leaves", ParamValue.int (2 ^ 8)),
   ("tree_method", ParamValue.str "gpu_hist"),
   ("objective", ParamValue.str "reg:squarederror"),
   ("grow_policy", ParamValue.str "lossguide")]

/-- Dictionary lookup (`d[k]` / `d.get(k)`). -/
def lookupKey {β : Type} (ps : List (String × β)) (k : String) : Option β :=
  (ps.find? (fun p => p.1 = k)).map Prod.snd

/-- The arguments of `xgb.dask.train(client, params, dtrain,
num_boost_round=params['num_rounds'])` that the embedding tracks. -/
structure TrainCall where
  params : List (String × ParamValue)
  numBoostRound : Option ParamValue

def notebookTrainCall : TrainCall :=
  ⟨notebookParams, lookupKey notebookParams "num_rounds"⟩

inductive TrainEntry (β η : Type)
  | booster (b : β)
  | history (hist : η)

/-- Modelled from the spec: `xgb.dask.train` is an external library routine
whose body is not in this repository; per the spec ("returning a trained model
plus an evaluation-history record") and the notebook's own markdown ("returns a
dictionary containing the resulting booster and evaluation history obtained
from evaluation metrics"), its result is a dictionary holding the trained
booster under key `'booster'` and the evaluation history under key
`'history'`. -/
def xgbDaskTrain {β η : Type} (tc : TrainCall) (b : β) (hist : η) :
    List (String × TrainEntry β η) :=
  match tc with
  | _ => [("booster", TrainEntry.booster b), ("history", TrainEntry.history hist)]

/-! ### Post-training mutation discipline -/

/-- The booster: the trained trees plus its parameter dictionary
(the spec's model object). -/
structure Booster where
  trees : ℕ
  params : List (String × String)
deriving DecidableEq

/-- The state the training call leaves behind: the booster and the
evaluation history. -/
structure TrainedState where
  booster : Booster
  history : List (String × List ℚ)
deriving DecidableEq

/-- `booster.set_param({key: val})`: overwrite one entry of the booster's
parameter dictionary. -/
def setBoosterParam (b : Booster) (key val : String) : Booster :=
  ⟨b.trees, (key, val) :: b.params.filter (fun p => p.1 ≠ key)⟩

/-- The operations the notebook performs after `xgb.dask.train` returns,
in cell order. -/
inductive PostStep
  | extractBooster
  | extractHistory
  | setParam (key val : String)
  | daskPredict
  | mapPartitionsCall
  | resetIndexPred
  | resetIndexTrue
  | squaredErrorOne
  | rmseOne
  | inplacePredict
  | resetIndexTrueTwo
  | squaredErrorTwo
  | rmseTwo
deriving DecidableEq

/-- Effect of a post-training operation on the trained state: only
`set_param` writes (to the booster's parameter dictionary); the extraction,
prediction, and metric operations only read. -/
def stepEffect : PostStep → TrainedState → TrainedState
  | .setParam k v, s => ⟨setBoosterParam s.booster k v, s.history⟩
  | _, s => s

def postTrainingSteps : List PostStep :=
  [.extractBooster, .extractHistory, .setParam "predictor" "gpu_predictor",
   .daskPredict, .mapPartitionsCall, .resetIndexPred, .resetIndexTrue,
   .squaredErrorOne, .rmseOne, .inplacePredict, .resetIndexTrueTwo,
   .squaredErrorTwo, .rmseTwo]

def runPost (steps : List PostStep) (s : TrainedState) : TrainedState :=
  steps.foldl (fun acc st => stepEffect st acc) s

theorem stepEffect_history (st : PostStep) (s : TrainedState) :
    (stepEffect st s).history = s.history := by
  cases st <;> rfl

theorem runPost_history (steps : List PostStep) (s : TrainedState) :
    (runPost steps s).history = s.history := by
  induction steps generalizing s with
  | nil => rfl
  | cons st rest ih =>
    simp only [runPost, List.foldl_cons] at ih ⊢
    rw [ih, stepEffect_history]

/-! ### IPADDR extraction -/

/-- Tokenizer helper: scan the characters, accumulating the current token. -/
def splitWsAux : List Char → List Char → List String
  | [], acc => if acc = [] then [] else [String.mk acc.reverse]
  | c :: rest, acc =>
    if c.isWhitespace then
      if acc = [] then splitWsAux rest []
      else String.mk acc.reverse :: splitWsAux rest []
    else splitWsAux rest (c :: acc)

/-- Python's `str.split()` with no separator: the runs of non-whitespace
characters; an empty or all-whitespace string has no tokens. -/
def pyTokens (s : String) : List String :=
  splitWsAux s.toList []

/-- `IPADDR = str(output.decode()).split()[0]`: the first token, when there is
one (`[0]` raises `IndexError` otherwise). -/
def extractIPAddr (output : String) : Option String :=
  (pyTokens output).head?

structure Cluster where
  ip : String
deriving DecidableEq

/-- `cluster = LocalCUDACluster(ip=IPADDR)`: only reachable when the address
extraction produced a value. -/
def clusterBootstrap (output : String) : Option Cluster :=
  (extractIPAddr output).map (fun a => ⟨a⟩)

/-! ### Claims about the notebook's event order, training call, and errors -/

/-- C4: `NCCL_P2P_DISABLE` is set to `"1"` strictly before any
distributed-runtime object is created: it is the very first event of the
notebook, and at every event that creates a runtime object
(`LocalCUDACluster` or `Client`) the variable is still set to `"1"`. -/
theorem c4_env_set_before_runtime (i : Nat) (ev : NbEvent)
    (hev : notebookEvents[i]? = some ev) (hrt : startsRuntime ev = true) :
    envAfter (notebookEvents.take i) "NCCL_P2P_DISABLE" = some "1" ∧
    notebookEvents.head? = some (NbEvent.setEnvVar "NCCL_P2P_DISABLE" "1") := by
  have h18 : i < 18 := by
    by_contra hge
    rw [List.getElem?_eq_none (by simp [notebookEvents]; omega)] at hev
    exact Option.noConfusion hev
  interval_cases i <;>
    simp only [notebookEvents, List.getElem?_cons_succ, List.getElem?_cons_zero,
      Option.some.injEq] at hev <;>
    subst hev <;> revert hrt <;> decide

theorem c4_env_set_before_runtime_witness :
    envAfter (notebookEvents.take 4) "NCCL_P2P_DISABLE" = some "1" ∧
    notebookEvents.head? = some (NbEvent.setEnvVar "NCCL_P2P_DISABLE" "1") :=
  c4_env_set_before_runtime 4 NbEvent.createCluster (by decide) (by decide)

/-- C6: the single training call passes the fixed hyperparameter dictionary
and `num_boost_round = params['num_rounds'] = 100`, and its result is a
dictionary holding the trained booster under `'booster'` and the evaluation
history under `'history'`. -/
theorem c6_train_invocation (β η : Type) (b : β) (hist : η) :
    notebookTrainCall.numBoostRound = some (ParamValue.int 100) ∧
    lookupKey notebookTrainCall.params "num_rounds" = some (ParamValue.int 100) ∧
    lookupKey (xgbDaskTrain notebookTrainCall b hist) "booster"
      = some (TrainEntry.booster b) ∧
    lookupKey (xgbDaskTrain notebookTrainCall b hist) "history"
      = some (TrainEntry.history hist) := by
  refine ⟨?_, ?_, ?_, ?_⟩ <;>
    simp [notebookTrainCall, notebookParams, lookupKey, xgbDaskTrain, List.find?]

theorem c6_train_invocation_witness :
    notebookTrainCall.numBoostRound = some (ParamValue.int 100) ∧
    lookupKey notebookTrainCall.params "num_rounds" = some (ParamValue.int 100) ∧
    lookupKey (xgbDaskTrain notebookTrainCall (7 : ℕ) ([3] : List ℕ)) "booster"
      = some (TrainEntry.booster 7) ∧
    lookupKey (xgbDaskTrain notebookTrainCall (7 : ℕ) ([3] : List ℕ)) "history"
      = some (TrainEntry.history [3]) :=
  c6_train_invocation ℕ (List ℕ) 7 [3]

/-- C7: after training, every prefix of the subsequent operations leaves the
evaluation history unchanged, and every post-training operation other than the
single `set_param` call (in particular both prediction calls) leaves the whole
trained state, booster included, unchanged. -/
theorem c7_post_training_frame (s : TrainedState) (i : Nat) (st : PostStep)
    (hst : st ∈ postTrainingSteps)
    (hne : st ≠ PostStep.setParam "predictor" "gpu_predictor") :
    (runPost (postTrainingSteps.take i) s).history = s.history ∧
    stepEffect st s = s ∧
    stepEffect PostStep.daskPredict s = s ∧
    stepEffect PostStep.inplacePredict s = s := by
  refine ⟨runPost_history _ _, ?_, rfl, rfl⟩
  cases st <;> try rfl
  case setParam k v =>
    simp [postTrainingSteps] at hst
    exact absurd (by rw [hst.1, hst.2]) hne

theorem c7_post_training_frame_witness :
    (runPost (postTrainingSteps.take 13) ⟨⟨0, []⟩, []⟩).history
      = (⟨⟨0, []⟩, []⟩ : TrainedState).history ∧
    stepEffect PostStep.daskPredict ⟨⟨0, []⟩, []⟩ = (⟨⟨0, []⟩, []⟩ : TrainedState) ∧
    stepEffect PostStep.daskPredict ⟨⟨0, []⟩, []⟩ = (⟨⟨0, []⟩, []⟩ : TrainedState) ∧
    stepEffect PostStep.inplacePredict ⟨⟨0, []⟩, []⟩ = (⟨⟨0, []⟩, []⟩ : TrainedState) :=
  c7_post_training_frame ⟨⟨0, []⟩, []⟩ 13 PostStep.daskPredict (by decide) (by decide)

/-- C8: no error is ever caught: the notebook is a straight-line sequence, and
if the library call of any event raises, the whole run terminates with exactly
that error and no later event executes. -/
theorem c8_errors_propagate {σ ε : Type} (sem : NbEvent → σ → Except ε σ)
    (pre post : List NbEvent) (ev : NbEvent) (s s2 : σ) (e : ε)
    (hsplit : notebookEvents = pre ++ ev :: post)
    (hpre : runNotebook sem pre s = Except.ok s2)
    (herr : sem ev s2 = Except.error e) :
    runNotebook sem notebookEvents s = Except.error e := by
  rw [hsplit, runNotebook_append, hpre]
  simp [runNotebook, herr]

/-- A semantics where the `LocalCUDACluster` constructor fails. -/
def failAtCluster (ev : NbEvent) : Unit → Except Nat Unit :=
  fun _ => if ev = NbEvent.createCluster then Except.error 0 else Except.ok ()

theorem c8_errors_propagate_witness :
    runNotebook failAtCluster notebookEvents () = Except.error 0 :=
  c8_errors_propagate failAtCluster
    [.setEnvVar "NCCL_P2P_DISABLE" "1", .importLibs, .runHostname, .extractAddr]
    [.createClient, .buildFrame, .toDask, .querySplit, .waitData, .buildDMatrix,
     .trainModel, .extractResults, .setParamCall, .predictDistributed,
     .metricOne, .predictInplace, .metricTwo]
    NbEvent.createCluster () () 0 rfl rfl rfl

/-- C9: the address extraction takes the first whitespace-separated token of
the `hostname` output; it produces a value exactly when the output has at
least one token, and on empty or all-whitespace output it has no value, so the
cluster bootstrap cannot proceed. -/
theorem c9_ipaddr_first_token (out : String) (h : pyTokens out ≠ []) :
    (∃ a, extractIPAddr out = some a ∧ (pyTokens out).head? = some a) ∧
    extractIPAddr "" = none ∧
    extractIPAddr " \n\t " = none ∧
    clusterBootstrap "" = none := by
  refine ⟨?_, by decide, by decide, by decide⟩
  cases hcase : pyTokens out with
  | nil => exact absurd hcase h
  | cons a t => exact ⟨a, by simp [extractIPAddr, hcase], by simp [hcase]⟩

theorem c9_ipaddr_first_token_witness :
    (∃ a, extractIPAddr "10.33.227.157 172.17.0.1" = some a ∧
        (pyTokens "10.33.227.157 172.17.0.1").head? = some a) ∧
    extractIPAddr "" = none ∧
    extractIPAddr " \n\t " = none ∧
    clusterBootstrap "" = none :=
  c9_ipaddr_first_token "10.33.227.157 172.17.0.1" (by decide)

/-! ### Series and the two RMSE pipelines

Predictions and labels are numeric series (exact arithmetic stands in for the
notebook's floating point).  A cudf/pandas series carries an index; arithmetic
between two series aligns values by index (an index missing on either side
yields a null), and `mean()` skips nulls.  A dask series is a list of
per-worker partitions; `reset_index(drop=True)` gives each partition a fresh
`RangeIndex`, and elementwise operations between two dask series with matching
partitioning work partitionwise.  The pipelines are embedded up to the final
`mean()`; the square root is applied in the statements, over `ℝ`. -/

abbrev Series := List (Nat × ℚ)

def seriesValues (s : Series) : List ℚ := s.map Prod.snd

/-- Label-based lookup inside one series. -/
def lookupIdx (s : Series) (i : Nat) : Option ℚ :=
  (s.find? (fun p => p.1 = i)).map Prod.snd

/-- `reset_index(drop=True)` on one partition: keep the values, install a
fresh `RangeIndex`. -/
def resetIdx (s : Series) : Series := (seriesValues s).enum

/-- The aligned index union of two series (first operand's indices, then the
second's extras). -/
def alignIdx (a b : Series) : List Nat :=
  a.map Prod.fst ++
    (b.map Prod.fst).filter (fun i => !((a.map Prod.fst).contains i))

/-- `a - b` on series: index-aligned subtraction; an index missing from either
side yields a null (`NaN`). -/
def seriesSub (a b : Series) : List (Nat × Option ℚ) :=
  (alignIdx a b).map (fun i =>
    (i, match lookupIdx a i, lookupIdx b i with
        | some x, some y => some (x - y)
        | _, _ => none))

/-- `(...)**2`, elementwise and null-preserving. -/
def seriesSq (l : List (Nat × Option ℚ)) : List (Nat × Option ℚ) :=
  l.map (fun p => (p.1, p.2.map (fun v => v ^ 2)))

/-- `.mean()` with the default null-skipping: sum of the non-null values over
their count. -/
def seriesMean (l : List (Nat × Option ℚ)) : ℚ :=
  (l.filterMap Prod.snd).sum / (l.filterMap Prod.snd).length

/-- A dask series: per-worker partitions. -/
structure DSeries where
  parts : List Series

/-- dask `reset_index(drop=True)`: each partition gets a fresh `RangeIndex`
starting at 0. -/
def dResetIdx (d : DSeries) : DSeries := ⟨d.parts.map resetIdx⟩

/-- `pred.map_partitions(lambda part: cudf.Series(part))`: each raw prediction
partition becomes a series with a default `RangeIndex`. -/
def mapPartitionsToSeries (parts : List (List ℚ)) : DSeries :=
  ⟨parts.map List.enum⟩

/-- Elementwise subtraction of two dask series with matching partitioning:
partitionwise index-aligned subtraction. -/
def dSub (a b : DSeries) : List (List (Nat × Option ℚ)) :=
  List.zipWith seriesSub a.parts b.parts

/-- `squared_error.mean().compute()`: the global null-skipping mean over all
partitions. -/
def dMean (l : List (List (Nat × Option ℚ))) : ℚ := seriesMean l.flatten

/-- Method 1 of the notebook (`xgb.dask.predict`), up to the final square
root: map the raw prediction partitions to series, reset both indices,
subtract, square, and take the global mean. -/
def method1MeanSq (predParts : List (List ℚ)) (ytest : DSeries) : ℚ :=
  dMean ((dSub (dResetIdx (mapPartitionsToSeries predParts))
    (dResetIdx ytest)).map seriesSq)

/-- Method 2 of the notebook (`booster.inplace_predict` on
`X_test.compute()`), up to the final square root: predictions come back as a
flat array, the labels are reset partitionwise and materialized, and
subtraction against an array is positional. -/
def method2MeanSq (predVals : List ℚ) (ytest : DSeries) : ℚ :=
  ((List.zipWith (fun p t => p - t) predVals
      (seriesValues ((dResetIdx ytest).parts.flatten))).map (fun v => v ^ 2)).sum
    / ((List.zipWith (fun p t => p - t) predVals
      (seriesValues ((dResetIdx ytest).parts.flatten))).map (fun v => v ^ 2)).length

/-- The metric the spec describes, up to the final square root: the arithmetic
mean of the elementwise squared differences between predictions and labels. -/
def referenceMeanSq (pred labels : List ℚ) : ℚ :=
  (List.zipWith (fun p t => (p - t) ^ 2) pred labels).sum / pred.length

/-! ### Lemmas on aligned subtraction of freshly indexed series -/

theorem lookupIdx_enumFrom (n i : Nat) (l : List ℚ) :
    lookupIdx (List.enumFrom n l) i = if n ≤ i then l[i - n]? else none := by
  induction l generalizing n with
  | nil =>
    simp [lookupIdx, List.enumFrom]
  | cons x t ih =>
    by_cases hni : n = i
    · subst hni
      simp [lookupIdx, List.enumFrom, List.find?]
    · have hfind : lookupIdx (List.enumFrom n (x :: t)) i
          = lookupIdx (List.enumFrom (n + 1) t) i := by
        simp only [lookupIdx, List.enumFrom, List.find?]
        have hdec : (decide (n = i)) = false := decide_eq_false hni
        rw [hdec]
      rw [hfind, ih]
      rcases Nat.lt_or_ge i (n + 1) with hlt | hge
      · have h1 : ¬(n + 1 ≤ i) := by omega
        have h2 : ¬(n ≤ i) := by omega
        simp [h1, h2]
      · have h2 : n ≤ i := by omega
        have h3 : i - n = (i - (n + 1)) + 1 := by omega
        simp only [hge, h2, if_pos]
        rw [h3, List.getElem?_cons_succ]

theorem alignIdx_enumFrom (n : Nat) (xs ys : List ℚ) (h : xs.length = ys.length) :
    alignIdx (List.enumFrom n xs) (List.enumFrom n ys)
      = List.range' n xs.length := by
  unfold alignIdx
  rw [List.enumFrom_map_fst, List.enumFrom_map_fst, h]
  have hnil : (List.range' n ys.length).filter
      (fun i => !((List.range' n ys.length).contains i)) = [] := by
    rw [List.filter_eq_nil_iff]
    intro a ha
    simp [List.elem_eq_mem, ha]
  rw [hnil, List.append_nil]

theorem map_alignedSub_range' (n : Nat) (xs ys : List ℚ)
    (h : xs.length = ys.length) :
    (List.range' n xs.length).map (fun i =>
      (i, match lookupIdx (List.enumFrom n xs) i,
            lookupIdx (List.enumFrom n ys) i with
          | some x, some y => some (x - y)
          | _, _ => none))
      = (List.enumFrom n (List.zipWith (fun x y => x - y) xs ys)).map
          (fun p => (p.1, some p.2)) := by
  induction xs generalizing ys n with
  | nil => simp
  | cons x xs ih =>
    cases ys with
    | nil => simp at h
    | cons y ys =>
      have hlen : xs.length = ys.length := by simpa using h
      simp only [List.length_cons, List.range'_succ, List.map_cons,
        List.zipWith_cons_cons, List.enumFrom]
      congr 1
      · have hx0 : lookupIdx ((n, x) :: List.enumFrom (n + 1) xs) n = some x := by
          simp [lookupIdx, List.find?]
        have hy0 : lookupIdx ((n, y) :: List.enumFrom (n + 1) ys) n = some y := by
          simp [lookupIdx, List.find?]
        rw [hx0, hy0]
      · have hstep : ∀ i ∈ List.range' (n + 1) xs.length,
            (i, match lookupIdx ((n, x) :: List.enumFrom (n + 1) xs) i,
                  lookupIdx ((n, y) :: List.enumFrom (n + 1) ys) i with
                | some a, some b => some (a - b)
                | _, _ => none)
            = (i, match lookupIdx (List.enumFrom (n + 1) xs) i,
                    lookupIdx (List.enumFrom (n + 1) ys) i with
                  | some a, some b => some (a - b)
                  | _, _ => none) := by
          intro i hi
          have hge : n + 1 ≤ i := by
            rcases List.mem_range'.mp hi with ⟨k, hk, rfl⟩
            omega
          have hne : (decide (n = i)) = false := by
            apply decide_eq_false
            omega
          have hx : lookupIdx ((n, x) :: List.enumFrom (n + 1) xs) i
              = lookupIdx (List.enumFrom (n + 1) xs) i := by
            simp only [lookupIdx, List.find?]
            rw [hne]
          have hy : lookupIdx ((n, y) :: List.enumFrom (n + 1) ys) i
              = lookupIdx (List.enumFrom (n + 1) ys) i := by
            simp only [lookupIdx, List.find?]
            rw [hne]
          rw [hx, hy]
        rw [List.map_congr_left hstep]
        exact ih (n + 1) ys hlen

theorem seriesSub_enumFrom (n : Nat) (xs ys : List ℚ)
    (h : xs.length = ys.length) :
    seriesSub (List.enumFrom n xs) (List.enumFrom n ys)
      = (List.enumFrom n (List.zipWith (fun x y => x - y) xs ys)).map
          (fun p => (p.1, some p.2)) := by
  unfold seriesSub
  rw [alignIdx_enumFrom n xs ys h]
  exact map_alignedSub_range' n xs ys h

theorem filterMap_always_some {α β : Type} (g : α → β) (l : List α) :
    l.filterMap (fun a => some (g a)) = l.map g := by
  induction l with
  | nil => rfl
  | cons a t ih => simp [List.filterMap_cons, ih]

theorem map_snd_sq (zs : List (Nat × ℚ)) :
    zs.map (fun q => q.2 ^ 2) = (zs.map Prod.snd).map (fun v => v ^ 2) := by
  induction zs with
  | nil => rfl
  | cons a t ih => simp [ih]

theorem perPartition_sq_values (xs : List ℚ) (p : Series)
    (h : xs.length = p.length) :
    (seriesSq (seriesSub xs.enum (resetIdx p))).filterMap Prod.snd
      = List.zipWith (fun x y => (x - y) ^ 2) xs (seriesValues p) := by
  have hlen : xs.length = (seriesValues p).length := by
    simpa [seriesValues] using h
  have hsub := seriesSub_enumFrom 0 xs (seriesValues p) hlen
  have hxenum : xs.enum = List.enumFrom 0 xs := rfl
  have hyenum : resetIdx p = List.enumFrom 0 (seriesValues p) := rfl
  rw [hxenum, hyenum, hsub, seriesSq, List.map_map, List.filterMap_map]
  have hfun : (Prod.snd ∘
        ((fun r : Nat × Option ℚ => (r.1, r.2.map (fun v => v ^ 2)))
          ∘ fun r : Nat × ℚ => (r.1, some r.2)))
      = fun q : Nat × ℚ => some (q.2 ^ 2) := by
    funext q; rfl
  rw [hfun, filterMap_always_some, map_snd_sq, List.enumFrom_map_snd,
    List.map_zipWith]

theorem resetIdx_enum (l : List ℚ) : resetIdx l.enum = l.enum := by
  simp [resetIdx, seriesValues, List.enum_map_snd]

theorem sq_filterMap_flatten (predParts : List (List ℚ)) (yparts : List Series)
    (h : predParts.map List.length = yparts.map List.length) :
    ((((List.zipWith seriesSub (predParts.map List.enum)
        (yparts.map resetIdx)).map seriesSq).flatten).filterMap Prod.snd)
      = List.zipWith (fun x y => (x - y) ^ 2) predParts.flatten
          ((yparts.map seriesValues).flatten) := by
  induction predParts generalizing yparts with
  | nil =>
    have : yparts = [] := by
      have h0 := h.symm
      simpa [List.map_eq_nil_iff] using h0
    subst this
    simp
  | cons xs rest ih =>
    cases yparts with
    | nil => simp at h
    | cons p yrest =>
      have hpair : xs.length = p.length ∧ rest.map List.length = yrest.map List.length := by
        simpa using h
      simp only [List.map_cons, List.zipWith_cons_cons, List.flatten_cons,
        List.filterMap_append]
      rw [perPartition_sq_values xs p hpair.1, ih yrest hpair.2,
        List.zipWith_append _ _ _ _ _ (by simp [seriesValues, hpair.1])]

theorem flatten_values_length (predParts : List (List ℚ)) (yparts : List Series)
    (h : predParts.map List.length = yparts.map List.length) :
    predParts.flatten.length = ((yparts.map seriesValues).flatten).length := by
  rw [List.length_flatten, List.length_flatten, h, List.map_map]
  apply congrArg
  apply List.map_congr_left
  intro p _
  simp [seriesValues]

theorem method1_eq_reference (predParts : List (List ℚ)) (ytest : DSeries)
    (h : predParts.map List.length = ytest.parts.map List.length) :
    method1MeanSq predParts ytest
      = referenceMeanSq predParts.flatten
          ((ytest.parts.map seriesValues).flatten) := by
  have hmap : dSub (dResetIdx (mapPartitionsToSeries predParts)) (dResetIdx ytest)
      = List.zipWith seriesSub (predParts.map List.enum)
          (ytest.parts.map resetIdx) := by
    simp only [dSub, dResetIdx, mapPartitionsToSeries, List.map_map]
    congr 1
    apply List.map_congr_left
    intro l _
    exact resetIdx_enum l
  unfold method1MeanSq dMean seriesMean referenceMeanSq
  rw [hmap, sq_filterMap_flatten predParts ytest.parts h]
  congr 2
  rw [List.length_zipWith, flatten_values_length predParts ytest.parts h, min_self,
    ← flatten_values_length predParts ytest.parts h]

theorem method2_eq_reference (predVals : List ℚ) (ytest : DSeries)
    (h : predVals.length = ((ytest.parts.map seriesValues).flatten).length) :
    method2MeanSq predVals ytest
      = referenceMeanSq predVals ((ytest.parts.map seriesValues).flatten) := by
  have hvals : seriesValues ((dResetIdx ytest).parts.flatten)
      = (ytest.parts.map seriesValues).flatten := by
    simp only [dResetIdx, seriesValues, List.map_flatten, List.map_map]
    congr 2
    funext p
    simp [resetIdx, seriesValues, List.enum_map_snd]
  unfold method2MeanSq referenceMeanSq
  rw [hvals, List.map_zipWith]
  congr 2
  rw [List.length_zipWith, h, min_self, ← h]

/-- C2: with matching prediction/label partition lengths, each of the two
metric pipelines of the notebook computes exactly the reference
root-mean-squared-error: the mean it feeds to the square root is the
arithmetic mean of the elementwise squared differences, and the resulting
metric is that mean's square root. -/
theorem c2_metric_is_rmse (predParts : List (List ℚ)) (ytest : DSeries)
    (h : predParts.map List.length = ytest.parts.map List.length) :
    method1MeanSq predParts ytest
      = referenceMeanSq predParts.flatten
          ((ytest.parts.map seriesValues).flatten) ∧
    method2MeanSq predParts.flatten ytest
      = referenceMeanSq predParts.flatten
          ((ytest.parts.map seriesValues).flatten) ∧
    Real.sqrt (method1MeanSq predParts ytest)
      = Real.sqrt (referenceMeanSq predParts.flatten
          ((ytest.parts.map seriesValues).flatten)) ∧
    Real.sqrt (method2MeanSq predParts.flatten ytest)
      = Real.sqrt (referenceMeanSq predParts.flatten
          ((ytest.parts.map seriesValues).flatten)) := by
  have h1 := method1_eq_reference predParts ytest h
  have h2 := method2_eq_reference predParts.flatten ytest
    (flatten_values_length predParts ytest.parts h)
  exact ⟨h1, h2, by rw [h1], by rw [h2]⟩

theorem c2_metric_is_rmse_witness :
    method1MeanSq [[1, 2]] ⟨[[(5, 3), (9, 4)]]⟩
      = referenceMeanSq ([[1, 2]] : List (List ℚ)).flatten
          ((([[(5, 3), (9, 4)]] : List Series).map seriesValues).flatten) ∧
    method2MeanSq ([[1, 2]] : List (List ℚ)).flatten ⟨[[(5, 3), (9, 4)]]⟩
      = referenceMeanSq ([[1, 2]] : List (List ℚ)).flatten
          ((([[(5, 3), (9, 4)]] : List Series).map seriesValues).flatten) ∧
    Real.sqrt (method1MeanSq [[1, 2]] ⟨[[(5, 3), (9, 4)]]⟩)
      = Real.sqrt (referenceMeanSq ([[1, 2]] : List (List ℚ)).flatten
          ((([[(5, 3), (9, 4)]] : List Series).map seriesValues).flatten)) ∧
    Real.sqrt (method2MeanSq ([[1, 2]] : List (List ℚ)).flatten ⟨[[(5, 3), (9, 4)]]⟩)
      = Real.sqrt (referenceMeanSq ([[1, 2]] : List (List ℚ)).flatten
          ((([[(5, 3), (9, 4)]] : List Series).map seriesValues).flatten)) :=
  c2_metric_is_rmse [[1, 2]] ⟨[[(5, 3), (9, 4)]]⟩ rfl

/-- C3: if the distributed prediction call and the in-place prediction call
return the same flat sequence of prediction values (and the prediction
partitions match the label partitions), then the Method-1 pipeline and the
Method-2 pipeline compute equal means of squared error, and hence equal RMSE
values. -/
theorem c3_pipelines_agree (predParts : List (List ℚ)) (predVals : List ℚ)
    (ytest : DSeries)
    (hlen : predParts.map List.length = ytest.parts.map List.length)
    (hpred : predParts.flatten = predVals) :
    method1MeanSq predParts ytest = method2MeanSq predVals ytest ∧
    Real.sqrt (method1MeanSq predParts ytest)
      = Real.sqrt (method2MeanSq predVals ytest) := by
  subst hpred
  have h1 := method1_eq_reference predParts ytest hlen
  have h2 := method2_eq_reference predParts.flatten ytest
    (flatten_values_length predParts ytest.parts hlen)
  exact ⟨h1.trans h2.symm, by rw [h1.trans h2.symm]⟩

theorem c3_pipelines_agree_witness :
    method1MeanSq [[1, 2]] ⟨[[(5, 3), (9, 4)]]⟩
      = method2MeanSq [1, 2] ⟨[[(5, 3), (9, 4)]]⟩ ∧
    Real.sqrt (method1MeanSq [[1, 2]] ⟨[[(5, 3), (9, 4)]]⟩)
      = Real.sqrt (method2MeanSq [1, 2] ⟨[[(5, 3), (9, 4)]]⟩) :=
  c3_pipelines_agree [[1, 2]] [1, 2] ⟨[[(5, 3), (9, 4)]]⟩ rfl rfl

end DaskXgbNb
